import Mathlib

/-!
Verification development for the dockertest-rs lifecycle engine
(`src/engine.rs` and `src/dockertest.rs`).

The Rust code is shallowly embedded: pure functions become Lean functions,
the Docker daemon and the random number generator become explicit oracles
(function parameters), stateful mutation becomes explicit state passing,
and fallible operations return `Except`.  Hash maps and hash sets are
modelled as association lists and membership lists, which preserves their
lookup/insert semantics.  Strings produced via `format!` are modelled by
explicit concatenation of the same literal pieces.
-/

namespace Dockertest

/-- Start policy of a composition: `Strict` or `Relaxed` (src/dockertest.rs,
src/engine.rs `StartPolicy`). -/
inductive StartPolicy where
  | strict
  | relaxed
deriving DecidableEq

/-- Error taxonomy of the library (`DockerTestError`); each variant carries its
message string. -/
inductive DockerTestError where
  | daemon (msg : String)
  | startup (msg : String)
  | pull (msg : String)
  | hostPort (msg : String)
  | logWriteError (msg : String)
  | processing (msg : String)
  | testBody (msg : String)
deriving DecidableEq

/-- A container that has been created on the daemon but not started
(`PendingContainer`): we keep the fields the orchestration logic reads. -/
structure PendingContainer where
  id : String
  handle : String
  start_policy : StartPolicy
deriving DecidableEq

/-- A started container (`RunningContainer`): the fields read by the
orchestration logic. -/
structure RunningContainer where
  id : String
  handle : String
deriving DecidableEq

instance : Inhabited RunningContainer := ⟨⟨"", ""⟩⟩

/-- A container referenced by teardown (`CleanupContainer`). -/
structure CleanupContainer where
  id : String
deriving DecidableEq

/-- A static external container (`StaticExternalContainer`). -/
structure StaticExternalContainer where
  id : String
  handle : String
deriving DecidableEq

/-- A user-authored container specification (`Composition`); `handle` models
the `handle()` accessor, `env` and `inject_container_name_env` model the
corresponding `HashMap` fields as association lists, `named_volumes` the
`(volume-id, path-in-container)` pairs. -/
structure Composition where
  handle : String
  container_name : String
  env : List (String × String)
  inject_container_name_env : List (String × String)
  named_volumes : List (String × String)
  final_named_volume_names : List String
deriving DecidableEq

instance : Inhabited Composition := ⟨⟨"", "", [], [], [], []⟩⟩

/-- Lookup in an association list modelling a `HashMap`. -/
def mapLookup {β : Type} : List (String × β) → String → Option β
  | [], _ => none
  | (k, v) :: rest, key => if k = key then some v else mapLookup rest key

/-- The `Keeper` of both source files: handle collision set, handle-to-index
table, and the kept vector of the current phase. -/
structure Keeper (α : Type) where
  lookup_collisions : List String
  lookup_handlers : List (String × Nat)
  kept : List α

/- ------------------------------------------------------------------
C8: generate_random_string (src/dockertest.rs 1023-1032).

`rng.gen_range(b'a', b'z')` draws from the half-open range [97, 122):
the rand crate's two-argument `gen_range(low, high)` excludes `high`.
We model the RNG as an oracle `rng : Nat → Nat`; draw `i` yields the byte
`97 + rng i % 25` (25 = 122 - 97), exactly the set of values the source
can produce.  The produced string is modelled by its list of characters.
------------------------------------------------------------------- -/

/-- Model of `generate_random_string`: `len` characters, the `i`-th being
`gen_range(b'a', b'z')` under random source `rng`, cast to `char`. -/
def generate_random_string (len : Nat) (rng : Nat → Nat) : List Char :=
  (List.range len).map (fun i => Char.ofNat (97 + rng i % 25))

/- ------------------------------------------------------------------
C9 / C7: prune strategy and teardown (src/dockertest.rs 679-799).
------------------------------------------------------------------- -/

/-- The prune strategy for teardown of containers (`PruneStrategy`). -/
inductive PruneStrategy where
  | runningRegardless
  | runningOnFailure
  | stopOnFailure
  | removeRegardless
deriving DecidableEq

/-- Model of `to_lowercase()` applied to the environment value: each character
is lowercased (the recognised keywords are ASCII). -/
def toLowercase (s : String) : String := ⟨s.data.map Char.toLower⟩

/-- The `DOCKERTEST_PRUNE` lookup at the top of `teardown`: the environment
value (if set) is lowercased and matched; unknown values log a warning (the
returned `Bool`) and fall back to `RemoveRegardless`, as does an unset
variable (without warning). -/
def prune_strategy (envVal : Option String) : PruneStrategy × Bool :=
  match envVal with
  | some val =>
      if toLowercase val = "stop_on_failure" then (PruneStrategy.stopOnFailure, false)
      else if toLowercase val = "never" then (PruneStrategy.runningRegardless, false)
      else if toLowercase val = "running_on_failure" then (PruneStrategy.runningOnFailure, false)
      else if toLowercase val = "always" then (PruneStrategy.removeRegardless, false)
      else (PruneStrategy.removeRegardless, true)
  | none => (PruneStrategy.removeRegardless, false)

/-- Observable daemon effects of `teardown` and `teardown_network`. -/
inductive TeardownAction where
  | stopContainer (id : String)
  | removeContainer (id : String)
  | disconnectSelf (containerId : String) (network : String)
  | removeNetwork (network : String)
  | removeVolume (name : String)
deriving DecidableEq

/-- Model of `teardown_network`: disconnect the self container when inside
docker, then remove the network. -/
def teardown_network (containerId : Option String) (network : String) :
    List TeardownAction :=
  (match containerId with
   | some id => [TeardownAction.disconnectSelf id network]
   | none => []) ++ [TeardownAction.removeNetwork network]

/-- Model of `DockerTest::teardown` as the sequence of daemon operations it
issues, mirroring the `match prune` arms including the two `if test_failed`
guards and the catch-all removal path. -/
def teardown (envVal : Option String) (test_failed : Bool)
    (cleanup : List CleanupContainer) (named_volumes : List String)
    (network : String) (containerId : Option String) : List TeardownAction :=
  match (prune_strategy envVal).1, test_failed with
  | PruneStrategy.runningRegardless, _ => []
  | PruneStrategy.runningOnFailure, true => []
  | PruneStrategy.stopOnFailure, true =>
      cleanup.map (fun c => TeardownAction.stopContainer c.id)
        ++ teardown_network containerId network
  | _, _ =>
      cleanup.map (fun c => TeardownAction.removeContainer c.id)
        ++ teardown_network containerId network
        ++ named_volumes.map TeardownAction.removeVolume

/- ------------------------------------------------------------------
C2: bootstrap (src/engine.rs 81-106) and DockerOperations::try_handle
(src/dockertest.rs 107-122).
------------------------------------------------------------------- -/

/-- The index-building loop of `bootstrap`: iterate compositions in insertion
order with a running index `i`; a handle not yet in `handlers` (the
`Entry::Vacant` arm) records `(handle, i)`, otherwise the handle joins the
collision set. -/
def bootstrap_tables : Nat → List Composition → List (String × Nat) → List String →
    List (String × Nat) × List String
  | _, [], handlers, collisions => (handlers, collisions)
  | i, c :: rest, handlers, collisions =>
    match mapLookup handlers c.handle with
    | some _ => bootstrap_tables (i + 1) rest handlers (c.handle :: collisions)
    | none => bootstrap_tables (i + 1) rest (handlers ++ [(c.handle, i)]) collisions

/-- Model of `bootstrap`: build the keeper tables over the composition vector,
keeping the compositions themselves in insertion order. -/
def bootstrap (compositions : List Composition) : Keeper Composition :=
  ⟨(bootstrap_tables 0 compositions [] []).2,
   (bootstrap_tables 0 compositions [] []).1,
   compositions⟩

/-- Model of `DockerOperations::try_handle`: a handle in the collision set is
a `TestBody` error; otherwise the handle resolves through `lookup_handlers`
to an index into `kept`. -/
def try_handle (containers : Keeper RunningContainer) (handle : String) :
    Except DockerTestError RunningContainer :=
  if handle ∈ containers.lookup_collisions then
    Except.error (DockerTestError.testBody
      ("handle '" ++ handle ++ "' defined multiple times"))
  else
    match mapLookup containers.lookup_handlers handle with
    | none => Except.error (DockerTestError.testBody
        ("container with handle '" ++ handle ++ "' not found"))
    | some i => Except.ok (containers.kept.getD i default)

theorem mapLookup_append {β : Type} (l1 l2 : List (String × β)) (key : String) :
    mapLookup (l1 ++ l2) key =
      match mapLookup l1 key with
      | some v => some v
      | none => mapLookup l2 key := by
  induction l1 with
  | nil => simp [mapLookup]
  | cons p rest ih =>
      obtain ⟨k, v⟩ := p
      by_cases hk : k = key <;> simp [mapLookup, hk, ih]

theorem bootstrap_tables_cons_some (i0 : Nat) (c : Composition)
    (rest : List Composition) (handlers : List (String × Nat))
    (collisions : List String) (w : Nat)
    (hc : mapLookup handlers c.handle = some w) :
    bootstrap_tables i0 (c :: rest) handlers collisions
      = bootstrap_tables (i0 + 1) rest handlers (c.handle :: collisions) := by
  simp [bootstrap_tables, hc]

theorem bootstrap_tables_cons_none (i0 : Nat) (c : Composition)
    (rest : List Composition) (handlers : List (String × Nat))
    (collisions : List String)
    (hc : mapLookup handlers c.handle = none) :
    bootstrap_tables i0 (c :: rest) handlers collisions
      = bootstrap_tables (i0 + 1) rest (handlers ++ [(c.handle, i0)]) collisions := by
  simp [bootstrap_tables, hc]

theorem bootstrap_tables_fst_lookup (rest : List Composition) (i0 : Nat)
    (handlers : List (String × Nat)) (collisions : List String) (key : String) :
    mapLookup (bootstrap_tables i0 rest handlers collisions).1 key =
      match mapLookup handlers key with
      | some v => some v
      | none =>
          if key ∈ rest.map Composition.handle
          then some (i0 + (rest.map Composition.handle).indexOf key)
          else none := by
  induction rest generalizing i0 handlers collisions with
  | nil =>
      cases h : mapLookup handlers key <;> simp [bootstrap_tables, h]
  | cons c rest ih =>
      cases hc : mapLookup handlers c.handle with
      | some w =>
          rw [bootstrap_tables_cons_some i0 c rest handlers collisions w hc, ih]
          by_cases hkey : key = c.handle
          · subst hkey
            rw [hc]
          · have hne : c.handle ≠ key := fun h' => hkey h'.symm
            cases h : mapLookup handlers key with
            | some v => simp
            | none =>
                simp only [List.map_cons]
                rw [List.indexOf_cons_ne _ hne]
                by_cases hmem : key ∈ List.map Composition.handle rest
                · simp only [List.mem_cons, hmem, or_true, if_pos]
                  congr 1
                  omega
                · simp [List.mem_cons, hkey, hmem]
      | none =>
          rw [bootstrap_tables_cons_none i0 c rest handlers collisions hc, ih]
          by_cases hkey : key = c.handle
          · subst hkey
            have happ : mapLookup (handlers ++ [(c.handle, i0)]) c.handle = some i0 := by
              rw [mapLookup_append, hc]
              simp [mapLookup]
            rw [happ, hc]
            simp [List.indexOf_cons_self]
          · have hne : c.handle ≠ key := fun h' => hkey h'.symm
            have happ : mapLookup (handlers ++ [(c.handle, i0)]) key
                = mapLookup handlers key := by
              rw [mapLookup_append]
              cases h : mapLookup handlers key <;> simp [mapLookup, hne]
            rw [happ]
            cases h : mapLookup handlers key with
            | some v => simp
            | none =>
                simp only [List.map_cons]
                rw [List.indexOf_cons_ne _ hne]
                by_cases hmem : key ∈ List.map Composition.handle rest
                · simp only [List.mem_cons, hmem, or_true, if_pos]
                  congr 1
                  omega
                · simp [List.mem_cons, hkey, hmem]

theorem bootstrap_tables_snd_mem (rest : List Composition) (i0 : Nat)
    (handlers : List (String × Nat)) (collisions : List String) (key : String) :
    key ∈ (bootstrap_tables i0 rest handlers collisions).2 ↔
      key ∈ collisions
      ∨ ((mapLookup handlers key).isSome ∧ key ∈ rest.map Composition.handle)
      ∨ (mapLookup handlers key = none
          ∧ 2 ≤ (rest.map Composition.handle).count key) := by
  induction rest generalizing i0 handlers collisions with
  | nil =>
      cases h : mapLookup handlers key <;> simp [bootstrap_tables, h]
  | cons c rest ih =>
      cases hc : mapLookup handlers c.handle with
      | some w =>
          rw [bootstrap_tables_cons_some i0 c rest handlers collisions w hc, ih]
          by_cases hkey : key = c.handle
          · subst hkey
            simp [hc, List.mem_cons]
          · have hne : c.handle ≠ key := fun h' => hkey h'.symm
            simp [List.mem_cons, List.count_cons, hkey, hne]
      | none =>
          rw [bootstrap_tables_cons_none i0 c rest handlers collisions hc, ih]
          by_cases hkey : key = c.handle
          · subst hkey
            have happ : mapLookup (handlers ++ [(c.handle, i0)]) c.handle = some i0 := by
              rw [mapLookup_append, hc]
              simp [mapLookup]
            rw [happ, hc]
            have h2 : (List.map Composition.handle (c :: rest)).count c.handle
                = (List.map Composition.handle rest).count c.handle + 1 := by
              simp [List.count_cons]
            constructor
            · rintro (hcol | ⟨_, hmem⟩ | ⟨hbad, _⟩)
              · exact Or.inl hcol
              · refine Or.inr (Or.inr ⟨rfl, ?_⟩)
                have h1 : 0 < (List.map Composition.handle rest).count c.handle :=
                  List.count_pos_iff.2 hmem
                omega
              · exact absurd hbad (by simp)
            · rintro (hcol | ⟨hbad, _⟩ | ⟨_, hcnt⟩)
              · exact Or.inl hcol
              · exact absurd hbad (by simp)
              · refine Or.inr (Or.inl ⟨rfl, ?_⟩)
                rw [h2] at hcnt
                have h1 : 0 < (List.map Composition.handle rest).count c.handle := by
                  omega
                exact List.count_pos_iff.1 h1
          · have hne : c.handle ≠ key := fun h' => hkey h'.symm
            have happ : mapLookup (handlers ++ [(c.handle, i0)]) key
                = mapLookup handlers key := by
              rw [mapLookup_append]
              cases h : mapLookup handlers key <;> simp [mapLookup, hne]
            rw [happ]
            simp [List.mem_cons, List.count_cons, hkey, hne]

theorem bootstrap_lookup (comps : List Composition) (key : String) :
    mapLookup (bootstrap comps).lookup_handlers key =
      if key ∈ comps.map Composition.handle
      then some ((comps.map Composition.handle).indexOf key)
      else none := by
  have h := bootstrap_tables_fst_lookup comps 0 [] [] key
  simpa [bootstrap, mapLookup] using h

theorem bootstrap_collisions (comps : List Composition) (key : String) :
    key ∈ (bootstrap comps).lookup_collisions ↔
      2 ≤ (comps.map Composition.handle).count key := by
  have h := bootstrap_tables_snd_mem comps 0 [] [] key
  simpa [bootstrap, mapLookup] using h

/-- C2: the keeper records, for each handle, its first-occurrence index in
insertion order, and a handle occurring more than once is in the collision set
while keeping its index; resolving a unique handle returns the container at
the matching composition's index, and resolving a repeated handle reports the
collision error. -/
theorem c2_bootstrap_resolution (comps : List Composition)
    (kept : List RunningContainer) (h : String) :
    (mapLookup (bootstrap comps).lookup_handlers h =
       if h ∈ comps.map Composition.handle
       then some ((comps.map Composition.handle).indexOf h)
       else none) ∧
    (h ∈ (bootstrap comps).lookup_collisions ↔
       2 ≤ (comps.map Composition.handle).count h) ∧
    ((comps.map Composition.handle).count h = 1 →
      try_handle ⟨(bootstrap comps).lookup_collisions,
                  (bootstrap comps).lookup_handlers, kept⟩ h
        = Except.ok (kept.getD ((comps.map Composition.handle).indexOf h) default)) ∧
    (2 ≤ (comps.map Composition.handle).count h →
      try_handle ⟨(bootstrap comps).lookup_collisions,
                  (bootstrap comps).lookup_handlers, kept⟩ h
        = Except.error (DockerTestError.testBody
            ("handle '" ++ h ++ "' defined multiple times"))) := by
  refine ⟨bootstrap_lookup comps h, bootstrap_collisions comps h, ?_, ?_⟩
  · intro hcount
    have hnotcol : ¬ h ∈ (bootstrap comps).lookup_collisions := by
      rw [bootstrap_collisions]
      omega
    have hmem : h ∈ comps.map Composition.handle :=
      List.count_pos_iff.1 (by omega)
    simp only [try_handle, hnotcol, if_neg, ite_false]
    rw [bootstrap_lookup]
    simp [hmem]
  · intro hcount
    have hcol : h ∈ (bootstrap comps).lookup_collisions :=
      (bootstrap_collisions comps h).2 hcount
    simp [try_handle, hcol]

/-- C2 witness: compositions with handles `a`, `b`, `b`; the unique handle `a`
resolves to the container at index 0 and the repeated handle `b` reports the
collision error. -/
theorem c2_bootstrap_resolution_witness :
    try_handle ⟨(bootstrap [⟨"a", "", [], [], [], []⟩, ⟨"b", "", [], [], [], []⟩,
                            ⟨"b", "", [], [], [], []⟩]).lookup_collisions,
                (bootstrap [⟨"a", "", [], [], [], []⟩, ⟨"b", "", [], [], [], []⟩,
                            ⟨"b", "", [], [], [], []⟩]).lookup_handlers,
                [⟨"ra", "a"⟩, ⟨"rb1", "b"⟩, ⟨"rb2", "b"⟩]⟩ "a"
      = Except.ok ⟨"ra", "a"⟩ ∧
    try_handle ⟨(bootstrap [⟨"a", "", [], [], [], []⟩, ⟨"b", "", [], [], [], []⟩,
                            ⟨"b", "", [], [], [], []⟩]).lookup_collisions,
                (bootstrap [⟨"a", "", [], [], [], []⟩, ⟨"b", "", [], [], [], []⟩,
                            ⟨"b", "", [], [], [], []⟩]).lookup_handlers,
                [⟨"ra", "a"⟩, ⟨"rb1", "b"⟩, ⟨"rb2", "b"⟩]⟩ "b"
      = Except.error (DockerTestError.testBody "handle 'b' defined multiple times") :=
  ⟨(c2_bootstrap_resolution _ _ "a").2.2.1 (by decide),
   (c2_bootstrap_resolution _ _ "b").2.2.2 (by decide)⟩

/- ------------------------------------------------------------------
C3: start_strict_containers (src/dockertest.rs 934-962, src/engine.rs
331-359; both paths run the identical loop).

The daemon-and-WaitFor effect of `PendingContainer::start()` is an oracle
`st`.  The loop is instrumented with the list of containers whose start was
invoked: each iteration either records a success and continues, or records
the first error and breaks.
------------------------------------------------------------------- -/

/-- The strict start loop, returning (containers start was invoked on,
successfully started containers in order, first error). -/
def start_strict_trace
    (st : PendingContainer → Except DockerTestError RunningContainer) :
    List PendingContainer →
      List PendingContainer × List RunningContainer × Option DockerTestError
  | [] => ([], [], none)
  | c :: rest =>
    match st c with
    | Except.ok r =>
        let t := start_strict_trace st rest
        (c :: t.1, r :: t.2.1, t.2.2)
    | Except.error e => ([c], [], some e)

/-- Model of `start_strict_containers`: `Ok(running)` when no error occurred,
otherwise the first error. -/
def start_strict_containers
    (st : PendingContainer → Except DockerTestError RunningContainer)
    (pending : List PendingContainer) :
    Except DockerTestError (List RunningContainer) :=
  match (start_strict_trace st pending).2.2 with
  | none => Except.ok (start_strict_trace st pending).2.1
  | some e => Except.error e

/-- C3: on an all-strict batch `before ++ c :: after` where every container
before position `k = |before|` starts successfully and the one at position
`k` fails, starting is exactly serial: start is invoked on precisely the
first `k+1` containers (so nothing after position `k` is ever started), each
of the first `k` was started successfully, and the error of position `k` is
the one returned. -/
theorem c3_strict_serial
    (st : PendingContainer → Except DockerTestError RunningContainer)
    (before after : List PendingContainer) (c : PendingContainer)
    (e : DockerTestError)
    (hfail : st c = Except.error e)
    (hok : ∀ b ∈ before, ∃ r, st b = Except.ok r) :
    ∃ running : List RunningContainer,
      start_strict_trace st (before ++ c :: after)
        = (before ++ [c], running, some e) ∧
      List.Forall₂ (fun b r => st b = Except.ok r) before running ∧
      start_strict_containers st (before ++ c :: after) = Except.error e := by
  induction before with
  | nil =>
      refine ⟨[], ?_, List.Forall₂.nil, ?_⟩
      · simp [start_strict_trace, hfail]
      · simp [start_strict_containers, start_strict_trace, hfail]
  | cons b before ih =>
      obtain ⟨r, hr⟩ := hok b (by simp)
      obtain ⟨running, htrace, hforall, hresult⟩ :=
        ih (fun b' hb' => hok b' (by simp [hb']))
      refine ⟨r :: running, ?_, List.Forall₂.cons hr hforall, ?_⟩
      · simp [start_strict_trace, hr, htrace]
      · simp [start_strict_containers, start_strict_trace, hr, htrace]

/-- Concrete start oracle for the C3 witness: container `p2` fails to start,
all others succeed. -/
def c3_st (p : PendingContainer) : Except DockerTestError RunningContainer :=
  if p.id = "p2" then Except.error (DockerTestError.daemon "boom")
  else Except.ok ⟨p.id, p.handle⟩

/-- C3 witness: three strict containers where the middle one fails; only the
first two are invoked, the first is started, the middle error is returned. -/
theorem c3_strict_serial_witness :
    ∃ running : List RunningContainer,
      start_strict_trace c3_st
          ([⟨"p1", "h1", StartPolicy.strict⟩]
            ++ ⟨"p2", "h2", StartPolicy.strict⟩ :: [⟨"p3", "h3", StartPolicy.strict⟩])
        = ([⟨"p1", "h1", StartPolicy.strict⟩] ++ [⟨"p2", "h2", StartPolicy.strict⟩],
           running, some (DockerTestError.daemon "boom")) ∧
      List.Forall₂ (fun b r => c3_st b = Except.ok r)
        [⟨"p1", "h1", StartPolicy.strict⟩] running ∧
      start_strict_containers c3_st
          ([⟨"p1", "h1", StartPolicy.strict⟩]
            ++ ⟨"p2", "h2", StartPolicy.strict⟩ :: [⟨"p3", "h3", StartPolicy.strict⟩])
        = Except.error (DockerTestError.daemon "boom") :=
  c3_strict_serial c3_st [⟨"p1", "h1", StartPolicy.strict⟩]
    [⟨"p3", "h3", StartPolicy.strict⟩] ⟨"p2", "h2", StartPolicy.strict⟩
    (DockerTestError.daemon "boom") (by simp [c3_st])
    (by
      intro b hb
      simp only [List.mem_singleton] at hb
      subst hb
      exact ⟨⟨"p1", "h1"⟩, by simp [c3_st]⟩)

/- ------------------------------------------------------------------
C1 (driver half), C4, C10: DockerTest::start_containers
(src/dockertest.rs 589-660), sort_running_containers_into_insertion_order
(899-919), wait_for_relaxed_containers (967-1021).

Oracles: `st` is the effect of `PendingContainer::start().await` (used
directly by the strict loop); `join` is the awaited outcome of the tokio
task spawned for a relaxed container — `none` models a join error,
`some r` a task that completed with start result `r`.
------------------------------------------------------------------- -/

/-- Model of `sort_running_containers_into_insertion_order`: sort the running
containers by the position of their id in the original insertion-ordered id
vector. -/
def sort_running_containers_into_insertion_order
    (running : List RunningContainer) (insertion_order_ids : List String) :
    List RunningContainer :=
  running.mergeSort (fun a b =>
    decide (insertion_order_ids.indexOf a.id ≤ insertion_order_ids.indexOf b.id))

/-- The gathering loop shared by both `wait_for_relaxed_containers` variants:
successes accumulate in order; the first error (start error, or the
`Processing` join error) is retained. -/
def gather_relaxed :
    List (Option (Except DockerTestError RunningContainer)) →
      List RunningContainer × Option DockerTestError
  | [] => ([], none)
  | some (Except.ok c) :: rest =>
      let t := gather_relaxed rest
      (c :: t.1, t.2)
  | some (Except.error e) :: rest =>
      let t := gather_relaxed rest
      (t.1, some e)
  | none :: rest =>
      let t := gather_relaxed rest
      (t.1, some (DockerTestError.processing "join error gathering"))

/-- Model of the run driver's `wait_for_relaxed_containers`: when
`cancel_futures` is set it drops the join handles and returns a `Processing`
error immediately — the returned `Bool` records whether the join of the
spawned tasks was actually awaited. -/
def wait_for_relaxed_containers
    (starting_relaxed : List (Option (Except DockerTestError RunningContainer)))
    (cancel_futures : Bool) :
    Bool × Except DockerTestError (List RunningContainer) :=
  if cancel_futures then
    (false, Except.error (DockerTestError.processing
      "cancelling all relaxed container join operations"))
  else
    match gather_relaxed starting_relaxed with
    | (running, none) => (true, Except.ok running)
    | (_, some e) => (true, Except.error e)

/-- The relaxed half of the `partition` in `DockerTest::start_containers`. -/
def dockertest_relaxed_part (pending_kept : List PendingContainer) :
    List PendingContainer :=
  (pending_kept.partition (fun c => c.start_policy == StartPolicy.relaxed)).1

/-- The strict half of the `partition` in `DockerTest::start_containers`. -/
def dockertest_strict_part (pending_kept : List PendingContainer) :
    List PendingContainer :=
  (pending_kept.partition (fun c => c.start_policy == StartPolicy.relaxed)).2

/-- The cleanup list built before any start is issued: a `CleanupContainer`
for every relaxed container followed by one for every strict container. -/
def dockertest_cleanup (pending_kept : List PendingContainer) :
    List CleanupContainer :=
  (dockertest_relaxed_part pending_kept).map (fun c => CleanupContainer.mk c.id)
    ++ (dockertest_strict_part pending_kept).map (fun c => CleanupContainer.mk c.id)

/-- `strict_success.is_err()`. -/
def strict_failed (r : Except DockerTestError (List RunningContainer)) : Bool :=
  match r with
  | Except.error _ => true
  | Except.ok _ => false

/-- Control flow of `Engine::start_containers` (src/engine.rs 262-316)
restricted to the strict/relaxed sequencing: the `?` on
`start_strict_containers` returns the strict error before
`wait_for_relaxed_containers` is reached, so the relaxed join is awaited
(first component `true`) only when strict startup succeeded. -/
def engine_start_relaxed_awaited
    (st : PendingContainer → Except DockerTestError RunningContainer)
    (join : PendingContainer → Option (Except DockerTestError RunningContainer))
    (pending : List PendingContainer) : Bool × Option DockerTestError :=
  match start_strict_containers st (dockertest_strict_part pending) with
  | Except.error e => (false, some e)
  | Except.ok _ =>
      match gather_relaxed ((dockertest_relaxed_part pending).map join) with
      | (_, none) => (true, none)
      | (_, some e) => (true, some e)

/-- Outcome of the run driver's `start_containers`: whether the relaxed join
was awaited, the cleanup list paired with a failure, and the result. -/
structure StartContainersOutcome where
  awaited_relaxed_join : Bool
  cleanup : List CleanupContainer
  result : Except DockerTestError (List RunningContainer)

/-- Model of `DockerTest::start_containers`: partition into relaxed/strict,
record every created container for cleanup, start strict serially, wait for
the relaxed joins with `cancel_futures = strict_success.is_err()`, report the
strict error before the relaxed one, and on success sort the running
containers back into the original insertion order. -/
def dockertest_start_containers
    (st : PendingContainer → Except DockerTestError RunningContainer)
    (join : PendingContainer → Option (Except DockerTestError RunningContainer))
    (pending_kept : List PendingContainer) : StartContainersOutcome :=
  match start_strict_containers st (dockertest_strict_part pending_kept),
        wait_for_relaxed_containers ((dockertest_relaxed_part pending_kept).map join)
          (strict_failed
            (start_strict_containers st (dockertest_strict_part pending_kept))) with
  | Except.error e, (aw, _) =>
      ⟨aw, dockertest_cleanup pending_kept, Except.error e⟩
  | Except.ok _, (aw, Except.error e) =>
      ⟨aw, dockertest_cleanup pending_kept, Except.error e⟩
  | Except.ok srs, (aw, Except.ok rrs) =>
      ⟨aw, dockertest_cleanup pending_kept,
       Except.ok (sort_running_containers_into_insertion_order (srs ++ rrs)
         (pending_kept.map PendingContainer.id))⟩

/-- Concrete start oracle for the C4 counterexample: the strict container
`s1` fails to start, everything else succeeds. -/
def c4_st (p : PendingContainer) : Except DockerTestError RunningContainer :=
  if p.id = "s1" then Except.error (DockerTestError.daemon "strict start failure")
  else Except.ok ⟨p.id, p.handle⟩

/-- Concrete join oracle for the C4 counterexample: every relaxed task
completes successfully. -/
def c4_join (p : PendingContainer) :
    Option (Except DockerTestError RunningContainer) :=
  some (Except.ok ⟨p.id, p.handle⟩)

/-- C4 counterexample: with one failing strict container and one relaxed
container, both start paths return the strict error without awaiting the
relaxed join — the run driver sets `cancel_futures` and drops the join
handles, the engine's `?` returns before `wait_for_relaxed_containers` —
refuting the claim that the relaxed join is awaited regardless of strict
failure. -/
theorem c4_counterexample :
    (dockertest_start_containers c4_st c4_join
        [⟨"s1", "hs", StartPolicy.strict⟩,
         ⟨"r1", "hr", StartPolicy.relaxed⟩]).awaited_relaxed_join = false ∧
    (dockertest_start_containers c4_st c4_join
        [⟨"s1", "hs", StartPolicy.strict⟩,
         ⟨"r1", "hr", StartPolicy.relaxed⟩]).result
      = Except.error (DockerTestError.daemon "strict start failure") ∧
    (engine_start_relaxed_awaited c4_st c4_join
        [⟨"s1", "hs", StartPolicy.strict⟩,
         ⟨"r1", "hr", StartPolicy.relaxed⟩]).1 = false ∧
    (engine_start_relaxed_awaited c4_st c4_join
        [⟨"s1", "hs", StartPolicy.strict⟩,
         ⟨"r1", "hr", StartPolicy.relaxed⟩]).2
      = some (DockerTestError.daemon "strict start failure") :=
  ⟨rfl, rfl, rfl, rfl⟩

/-- C4 amended: in both start paths the join of the spawned relaxed tasks is
awaited if and only if strict startup succeeded; on a strict failure the run
driver drops the relaxed join handles (returning a `Processing` error) and
the engine path returns the strict error before waiting, so neither reaps
the relaxed tasks. -/
theorem c4_amended
    (st : PendingContainer → Except DockerTestError RunningContainer)
    (join : PendingContainer → Option (Except DockerTestError RunningContainer))
    (pending_kept : List PendingContainer) :
    ((dockertest_start_containers st join pending_kept).awaited_relaxed_join = true ↔
      ∃ rs, start_strict_containers st (dockertest_strict_part pending_kept)
          = Except.ok rs) ∧
    ((engine_start_relaxed_awaited st join pending_kept).1 = true ↔
      ∃ rs, start_strict_containers st (dockertest_strict_part pending_kept)
          = Except.ok rs) := by
  constructor
  · cases hs : start_strict_containers st (dockertest_strict_part pending_kept) with
    | error e =>
        simp [dockertest_start_containers, wait_for_relaxed_containers,
          strict_failed, hs]
    | ok rs =>
        cases hg : gather_relaxed
            ((dockertest_relaxed_part pending_kept).map join) with
        | mk rs2 oe =>
            cases oe <;>
              simp [dockertest_start_containers, wait_for_relaxed_containers,
                strict_failed, hs, hg]
  · cases hs : start_strict_containers st (dockertest_strict_part pending_kept) with
    | error e =>
        simp [engine_start_relaxed_awaited, hs]
    | ok rs =>
        cases hg : gather_relaxed
            ((dockertest_relaxed_part pending_kept).map join) with
        | mk rs2 oe =>
            cases oe <;> simp [engine_start_relaxed_awaited, hs, hg]

/-- C4 witness: the amended theorem instantiated at a batch whose strict
container starts successfully, so the relaxed join is awaited. -/
theorem c4_amended_witness :
    (dockertest_start_containers c4_st c4_join
        [⟨"s2", "hs", StartPolicy.strict⟩,
         ⟨"r1", "hr", StartPolicy.relaxed⟩]).awaited_relaxed_join = true :=
  (c4_amended c4_st c4_join
      [⟨"s2", "hs", StartPolicy.strict⟩, ⟨"r1", "hr", StartPolicy.relaxed⟩]).1.mpr
    ⟨[⟨"s2", "hs"⟩], rfl⟩

/-- Concrete start oracle for the C10 witness: strict container `s1` fails. -/
def c10_st (p : PendingContainer) : Except DockerTestError RunningContainer :=
  if p.id = "s1" then Except.error (DockerTestError.daemon "start failed")
  else Except.ok ⟨p.id, p.handle⟩

/-- Concrete join oracle for the C10 witness. -/
def c10_join (p : PendingContainer) :
    Option (Except DockerTestError RunningContainer) :=
  some (Except.ok ⟨p.id, p.handle⟩)

/-- C10: whenever the run driver's `start_containers` returns an error, the
cleanup list paired with the error contains a `CleanupContainer` for every
container of the batch — strict and relaxed, started or not. -/
theorem c10_cleanup_covers_created
    (st : PendingContainer → Except DockerTestError RunningContainer)
    (join : PendingContainer → Option (Except DockerTestError RunningContainer))
    (pending_kept : List PendingContainer) (e : DockerTestError)
    (herr : (dockertest_start_containers st join pending_kept).result
      = Except.error e) :
    ∀ p ∈ pending_kept,
      CleanupContainer.mk p.id ∈
        (dockertest_start_containers st join pending_kept).cleanup := by
  have hcl : (dockertest_start_containers st join pending_kept).cleanup
      = dockertest_cleanup pending_kept := by
    unfold dockertest_start_containers
    split <;> rfl
  intro p hp
  rw [hcl]
  unfold dockertest_cleanup dockertest_relaxed_part dockertest_strict_part
  rcases (@List.mem_partition _ pending_kept p
      (fun c => c.start_policy == StartPolicy.relaxed)).1 hp with h | h
  · exact List.mem_append_left _ (List.mem_map_of_mem _ h)
  · exact List.mem_append_right _ (List.mem_map_of_mem _ h)

/-- C10 witness: a strict failure in a strict+relaxed batch; the cleanup list
contains both the never-started relaxed container and the failed strict
container. -/
theorem c10_cleanup_covers_created_witness :
    CleanupContainer.mk "s1" ∈
      (dockertest_start_containers c10_st c10_join
        [⟨"s1", "hs", StartPolicy.strict⟩,
         ⟨"r1", "hr", StartPolicy.relaxed⟩]).cleanup ∧
    CleanupContainer.mk "r1" ∈
      (dockertest_start_containers c10_st c10_join
        [⟨"s1", "hs", StartPolicy.strict⟩,
         ⟨"r1", "hr", StartPolicy.relaxed⟩]).cleanup :=
  ⟨c10_cleanup_covers_created c10_st c10_join
      [⟨"s1", "hs", StartPolicy.strict⟩, ⟨"r1", "hr", StartPolicy.relaxed⟩]
      (DockerTestError.daemon "start failed") rfl
      ⟨"s1", "hs", StartPolicy.strict⟩ (by simp),
   c10_cleanup_covers_created c10_st c10_join
      [⟨"s1", "hs", StartPolicy.strict⟩, ⟨"r1", "hr", StartPolicy.relaxed⟩]
      (DockerTestError.daemon "start failed") rfl
      ⟨"r1", "hr", StartPolicy.relaxed⟩ (by simp)⟩

/- ------------------------------------------------------------------
C5: resolve_inject_container_name_env (src/engine.rs 130-167,
src/dockertest.rs 453-494; both run the identical two-pass algorithm).
------------------------------------------------------------------- -/

/-- The error message for an injection request naming a collided handle. -/
def inject_dup_msg (chandle target : String) : String :=
  "composition `" ++ chandle
    ++ "` attempted to inject_container_name_env on duplicate handle `"
    ++ target ++ "`"

/-- The error message for an injection request naming an unknown handle. -/
def inject_missing_msg (chandle target : String) : String :=
  "composition `" ++ chandle
    ++ "` attempted to inject_container_name_env on non-existent handle `"
    ++ target ++ "`"

/-- First-pass validation of one composition's injection requests (the inner
`iter().map(..).collect::<Result<_,_>>()`): each `(handle, env)` request must
name an uncollided, known handle; a valid request yields the triple
`(handle, container_name_of_target, env)`; the first invalid request aborts. -/
def collect_transforms (keeper : Keeper Composition) (c : Composition) :
    List (String × String) → Except DockerTestError (List (String × String × String))
  | [] => Except.ok []
  | (handle, env) :: rest =>
    if handle ∈ keeper.lookup_collisions then
      Except.error (DockerTestError.startup (inject_dup_msg c.handle handle))
    else
      match mapLookup keeper.lookup_handlers handle with
      | none =>
          Except.error (DockerTestError.startup (inject_missing_msg c.handle handle))
      | some index =>
          match collect_transforms keeper c rest with
          | Except.ok ts =>
              Except.ok ((handle, (keeper.kept.getD index default).container_name, env) :: ts)
          | Except.error e => Except.error e

/-- The first pass over all compositions; `composition_transforms.push(t?)`
aborts the whole operation at the first error, before any mutation. -/
def first_pass (keeper : Keeper Composition) :
    List Composition → Except DockerTestError (List (List (String × String × String)))
  | [] => Except.ok []
  | c :: rest =>
      match collect_transforms keeper c c.inject_container_name_env with
      | Except.error e => Except.error e
      | Except.ok ts =>
          match first_pass keeper rest with
          | Except.error e => Except.error e
          | Except.ok tss => Except.ok (ts :: tss)

/-- `HashMap::insert` on the association-list model: the new binding shadows
any earlier binding of the same key (maps are compared through `mapLookup`
only). -/
def envInsert (env : List (String × String)) (key value : String) :
    List (String × String) :=
  (key, value) :: env

/-- The second pass for one composition: each validated triple
`(handle, name, env)` performs `c.env.insert(env, name)`. -/
def apply_transforms (c : Composition) (ts : List (String × String × String)) :
    Composition :=
  ts.foldl (fun acc t => { acc with env := envInsert acc.env t.2.2 t.2.1 }) c

/-- Model of `resolve_inject_container_name_env` in state-passing style: the
first component is the `Result<(), _>`, the second the keeper afterwards.
On a first-pass error the keeper is returned unchanged (the Rust `?` returns
out of the function before the mutating loop runs). -/
def resolve_inject_container_name_env (keeper : Keeper Composition) :
    Except DockerTestError Unit × Keeper Composition :=
  match first_pass keeper keeper.kept with
  | Except.error e => (Except.error e, keeper)
  | Except.ok tss =>
      (Except.ok (),
       { keeper with
          kept := (keeper.kept.zip tss).map (fun p => apply_transforms p.1 p.2) })

/-- The triple produced for a valid injection request. -/
def inject_transform (keeper : Keeper Composition) (p : String × String) :
    String × String × String :=
  (p.1,
   (keeper.kept.getD ((mapLookup keeper.lookup_handlers p.1).getD 0) default).container_name,
   p.2)

theorem collect_transforms_error (keeper : Keeper Composition) (c : Composition)
    (l : List (String × String)) (e : DockerTestError)
    (h : collect_transforms keeper c l = Except.error e) :
    ∃ target envName, (target, envName) ∈ l ∧
      ((target ∈ keeper.lookup_collisions ∧
         e = DockerTestError.startup (inject_dup_msg c.handle target)) ∨
       (target ∉ keeper.lookup_collisions ∧
         mapLookup keeper.lookup_handlers target = none ∧
         e = DockerTestError.startup (inject_missing_msg c.handle target))) := by
  induction l with
  | nil => exact absurd h (by simp [collect_transforms])
  | cons p rest ih =>
      obtain ⟨target, envName⟩ := p
      by_cases hcol : target ∈ keeper.lookup_collisions
      · refine ⟨target, envName, by simp, Or.inl ⟨hcol, ?_⟩⟩
        simp [collect_transforms, hcol] at h
        exact h.symm
      · cases hlk : mapLookup keeper.lookup_handlers target with
        | none =>
            refine ⟨target, envName, by simp, Or.inr ⟨hcol, hlk, ?_⟩⟩
            simp [collect_transforms, hcol, hlk] at h
            exact h.symm
        | some idx =>
            cases hrec : collect_transforms keeper c rest with
            | ok ts => simp [collect_transforms, hcol, hlk, hrec] at h
            | error e2 =>
                have he2 : e2 = e := by
                  simp [collect_transforms, hcol, hlk, hrec] at h
                  exact h
                obtain ⟨t2, e2n, hm, hd⟩ := ih (he2 ▸ hrec)
                exact ⟨t2, e2n, by simp [hm], hd⟩

theorem collect_transforms_ok (keeper : Keeper Composition) (c : Composition)
    (l : List (String × String))
    (hvalid : ∀ p ∈ l, p.1 ∉ keeper.lookup_collisions ∧
      (mapLookup keeper.lookup_handlers p.1).isSome) :
    collect_transforms keeper c l = Except.ok (l.map (inject_transform keeper)) := by
  induction l with
  | nil => simp [collect_transforms]
  | cons p rest ih =>
      obtain ⟨target, envName⟩ := p
      obtain ⟨hcol, hsome⟩ := hvalid (target, envName) (by simp)
      obtain ⟨idx, hidx⟩ := Option.isSome_iff_exists.1 hsome
      have hrec := ih (fun q hq => hvalid q (by simp [hq]))
      simp [collect_transforms, hcol, hidx, hrec, inject_transform]

theorem first_pass_error (keeper : Keeper Composition) (l : List Composition)
    (e : DockerTestError) (h : first_pass keeper l = Except.error e) :
    ∃ c ∈ l, collect_transforms keeper c c.inject_container_name_env
      = Except.error e := by
  induction l with
  | nil => exact absurd h (by simp [first_pass])
  | cons c rest ih =>
      cases hc : collect_transforms keeper c c.inject_container_name_env with
      | error e2 =>
          have : e2 = e := by
            simp [first_pass, hc] at h
            exact h
          exact ⟨c, by simp, this ▸ hc⟩
      | ok ts =>
          cases hr : first_pass keeper rest with
          | error e2 =>
              have he2 : e2 = e := by
                simp [first_pass, hc, hr] at h
                exact h
              obtain ⟨c2, hm, hcol⟩ := ih (he2 ▸ hr)
              exact ⟨c2, by simp [hm], hcol⟩
          | ok tss => simp [first_pass, hc, hr] at h

theorem first_pass_ok (keeper : Keeper Composition) (l : List Composition)
    (hvalid : ∀ c ∈ l, ∀ p ∈ c.inject_container_name_env,
      p.1 ∉ keeper.lookup_collisions ∧
      (mapLookup keeper.lookup_handlers p.1).isSome) :
    first_pass keeper l = Except.ok
      (l.map (fun c => c.inject_container_name_env.map (inject_transform keeper))) := by
  induction l with
  | nil => simp [first_pass]
  | cons c rest ih =>
      have hc := collect_transforms_ok keeper c c.inject_container_name_env
        (hvalid c (by simp))
      have hr := ih (fun c2 hc2 => hvalid c2 (by simp [hc2]))
      simp [first_pass, hc, hr]

theorem apply_transforms_lookup_notin (c : Composition)
    (ts : List (String × String × String)) (key : String)
    (hkey : ∀ t ∈ ts, t.2.2 ≠ key) :
    mapLookup (apply_transforms c ts).env key = mapLookup c.env key := by
  induction ts generalizing c with
  | nil => rfl
  | cons t rest ih =>
      have hstep : apply_transforms c (t :: rest)
          = apply_transforms { c with env := envInsert c.env t.2.2 t.2.1 } rest := rfl
      rw [hstep, ih _ (fun u hu => hkey u (by simp [hu]))]
      have hne : t.2.2 ≠ key := hkey t (by simp)
      simp [envInsert, mapLookup, hne]

theorem apply_transforms_lookup_last (c : Composition)
    (pre post : List (String × String × String)) (t : String × String × String)
    (hpost : ∀ u ∈ post, u.2.2 ≠ t.2.2) :
    mapLookup (apply_transforms c (pre ++ t :: post)).env t.2.2 = some t.2.1 := by
  induction pre generalizing c with
  | nil =>
      rw [List.nil_append]
      have hstep : apply_transforms c (t :: post)
          = apply_transforms { c with env := envInsert c.env t.2.2 t.2.1 } post := rfl
      rw [hstep, apply_transforms_lookup_notin _ _ _ hpost]
      simp [envInsert, mapLookup]
  | cons p pre ih =>
      rw [List.cons_append]
      have hstep : apply_transforms c (p :: (pre ++ t :: post))
          = apply_transforms { c with env := envInsert c.env p.2.2 p.2.1 }
              (pre ++ t :: post) := rfl
      rw [hstep, ih]

/-- C5: `resolve_inject_container_name_env` is atomic on failure — if any
injection request names a collided or unknown handle, the operation fails
with a `Startup` error naming the offending composition and the target
handle and the keeper (hence every env mapping) is unchanged; when every
request validates, the operation succeeds and the second pass rewrites each
requester's env entry to the target composition's final container name. -/
theorem c5_inject_atomic (keeper : Keeper Composition) :
    (∀ e, (resolve_inject_container_name_env keeper).1 = Except.error e →
       (resolve_inject_container_name_env keeper).2 = keeper ∧
       ∃ c ∈ keeper.kept, ∃ target envName,
         (target, envName) ∈ c.inject_container_name_env ∧
         ((target ∈ keeper.lookup_collisions ∧
            e = DockerTestError.startup (inject_dup_msg c.handle target)) ∨
          (target ∉ keeper.lookup_collisions ∧
            mapLookup keeper.lookup_handlers target = none ∧
            e = DockerTestError.startup (inject_missing_msg c.handle target)))) ∧
    ((∀ c ∈ keeper.kept, ∀ p ∈ c.inject_container_name_env,
        p.1 ∉ keeper.lookup_collisions ∧
        (mapLookup keeper.lookup_handlers p.1).isSome) →
      (resolve_inject_container_name_env keeper).1 = Except.ok () ∧
      (resolve_inject_container_name_env keeper).2.kept.length = keeper.kept.length ∧
      (∀ i, i < keeper.kept.length →
        ∀ target envName idx,
          (target, envName) ∈ (keeper.kept.getD i default).inject_container_name_env →
          ((keeper.kept.getD i default).inject_container_name_env.map
            (fun p => p.2)).count envName = 1 →
          mapLookup keeper.lookup_handlers target = some idx →
          mapLookup ((resolve_inject_container_name_env keeper).2.kept.getD i default).env
              envName
            = some ((keeper.kept.getD idx default).container_name))) := by
  constructor
  · intro e he
    cases hf : first_pass keeper keeper.kept with
    | ok tss => simp [resolve_inject_container_name_env, hf] at he
    | error e2 =>
        have hpair : resolve_inject_container_name_env keeper
            = (Except.error e2, keeper) := by
          simp [resolve_inject_container_name_env, hf]
        rw [hpair] at he
        have he2 : e2 = e := by
          simpa using he
        subst he2
        refine ⟨by rw [hpair], ?_⟩
        obtain ⟨c, hcmem, hcerr⟩ := first_pass_error keeper keeper.kept e2 hf
        obtain ⟨target, envName, hm, hd⟩ :=
          collect_transforms_error keeper c c.inject_container_name_env e2 hcerr
        exact ⟨c, hcmem, target, envName, hm, hd⟩
  · intro hvalid
    have hf := first_pass_ok keeper keeper.kept hvalid
    have hpair : resolve_inject_container_name_env keeper
        = (Except.ok (),
           { keeper with
              kept := (keeper.kept.zip (keeper.kept.map
                  (fun c => c.inject_container_name_env.map (inject_transform keeper)))).map
                (fun p => apply_transforms p.1 p.2) }) := by
      simp [resolve_inject_container_name_env, hf]
    refine ⟨by rw [hpair], ?_, ?_⟩
    · rw [hpair]
      simp
    · intro i hi target envName idx hmem hcount hidx
      rw [hpair]
      have hlen : i < ((keeper.kept.zip (keeper.kept.map
          (fun c => c.inject_container_name_env.map (inject_transform keeper)))).map
            (fun p => apply_transforms p.1 p.2)).length := by
        simpa using hi
      have hci : i < keeper.kept.length := hi
      have hgi : ((keeper.kept.zip (keeper.kept.map
          (fun c => c.inject_container_name_env.map (inject_transform keeper)))).map
            (fun p => apply_transforms p.1 p.2)).getD i default
          = apply_transforms keeper.kept[i]
              (keeper.kept[i].inject_container_name_env.map (inject_transform keeper)) := by
        rw [List.getD_eq_getElem _ _ hlen]
        rw [List.getElem_map]
        rw [List.getElem_zip]
        rw [List.getElem_map]
      have hgd : keeper.kept.getD i default = keeper.kept[i] :=
        List.getD_eq_getElem _ _ hci
      rw [hgd] at hmem hcount
      obtain ⟨pre, post, hsplit⟩ := List.append_of_mem hmem
      have hpostkeys : ∀ u ∈ post, u.2 ≠ envName := by
        intro u hu hequ
        rw [hsplit] at hcount
        simp only [List.map_append, List.map_cons, List.count_append,
          List.count_cons] at hcount
        have hucount : 0 < (post.map (fun p => p.2)).count envName := by
          have : u.2 ∈ post.map (fun p => p.2) := List.mem_map.2 ⟨u, hu, rfl⟩
          rw [hequ] at this
          exact List.count_pos_iff.2 this
        simp at hcount
        omega
      have hmapsplit : keeper.kept[i].inject_container_name_env.map (inject_transform keeper)
          = pre.map (inject_transform keeper)
            ++ inject_transform keeper (target, envName) :: post.map (inject_transform keeper) := by
        rw [hsplit]
        simp
      rw [hgi, hmapsplit]
      have happly := apply_transforms_lookup_last keeper.kept[i]
        (pre.map (inject_transform keeper)) (post.map (inject_transform keeper))
        (inject_transform keeper (target, envName))
        (by
          intro u hu
          obtain ⟨u0, hu0, rfl⟩ := List.mem_map.1 hu
          exact hpostkeys u0 hu0)
      simp only [inject_transform] at happly
      simp only [inject_transform]
      rw [happly, hidx]
      rfl

/-- Keeper for the C5 witness: compositions `db` and `app`, where `app`
requests injection of `db`'s final container name into `DB_HOST`, plus a
failing variant requesting the unknown handle `ghost`. -/
def c5_keeper : Keeper Composition :=
  ⟨[], [("db", 0), ("app", 1)],
   [⟨"db", "dockertest-rs-db-x", [], [], [], []⟩,
    ⟨"app", "dockertest-rs-app-x", [], [("db", "DB_HOST")], [], []⟩]⟩

/-- Failing keeper for the C5 witness: `app` targets an unknown handle. -/
def c5_keeper_bad : Keeper Composition :=
  ⟨[], [("db", 0), ("app", 1)],
   [⟨"db", "dockertest-rs-db-x", [], [], [], []⟩,
    ⟨"app", "dockertest-rs-app-x", [], [("ghost", "DB_HOST")], [], []⟩]⟩

/-- C5 witness: on the valid keeper the injection succeeds and `app`'s
`DB_HOST` resolves to `db`'s final container name; on the invalid keeper the
operation fails and leaves the keeper unchanged. -/
theorem c5_inject_atomic_witness :
    ((resolve_inject_container_name_env c5_keeper).1 = Except.ok () ∧
      mapLookup ((resolve_inject_container_name_env c5_keeper).2.kept.getD 1 default).env
          "DB_HOST"
        = some "dockertest-rs-db-x") ∧
    ((resolve_inject_container_name_env c5_keeper_bad).2 = c5_keeper_bad ∧
      ∃ c ∈ c5_keeper_bad.kept, ∃ target envName,
        (target, envName) ∈ c.inject_container_name_env ∧
        ((target ∈ c5_keeper_bad.lookup_collisions ∧
           DockerTestError.startup (inject_missing_msg "app" "ghost")
             = DockerTestError.startup (inject_dup_msg c.handle target)) ∨
         (target ∉ c5_keeper_bad.lookup_collisions ∧
           mapLookup c5_keeper_bad.lookup_handlers target = none ∧
           DockerTestError.startup (inject_missing_msg "app" "ghost")
             = DockerTestError.startup (inject_missing_msg c.handle target)))) :=
  ⟨⟨((c5_inject_atomic c5_keeper).2 (by decide)).1,
    by
      have h := ((c5_inject_atomic c5_keeper).2 (by decide)).2.2 1 (by decide)
        "db" "DB_HOST" 0 (by decide) (by decide) (by decide)
      simpa using h⟩,
   (c5_inject_atomic c5_keeper_bad).1
      (DockerTestError.startup (inject_missing_msg "app" "ghost")) rfl⟩

/- ------------------------------------------------------------------
C6: resolve_named_volumes (src/dockertest.rs 836-874).
------------------------------------------------------------------- -/

/-- The inner loop of `resolve_named_volumes` over one composition's
`named_volumes`: a volume id already in the map reuses its suffixed name;
otherwise the suffixed name `{id}-{suffix}` is built, pushed with its mount
path, and recorded in the map.  Returns the composition's
`volume_names_with_path` and the updated map. -/
def rnv_inner (suffix : String) :
    List (String × String) → List (String × String) →
      List String × List (String × String)
  | vmap, [] => ([], vmap)
  | vmap, (vid, path) :: rest =>
    match mapLookup vmap vid with
    | some suffixedName =>
        let t := rnv_inner suffix vmap rest
        ((suffixedName ++ ":" ++ path) :: t.1, t.2)
    | none =>
        let t := rnv_inner suffix (vmap ++ [(vid, vid ++ "-" ++ suffix)]) rest
        ((vid ++ "-" ++ suffix ++ ":" ++ path) :: t.1, t.2)

/-- Model of `resolve_named_volumes`: thread the `volume_name_map` through
the compositions in order, assigning each its `final_named_volume_names`;
the final map's values are drained into the teardown list. -/
def resolve_named_volumes (suffix : String) :
    List Composition → List (String × String) →
      List Composition × List (String × String)
  | [], vmap => ([], vmap)
  | c :: rest, vmap =>
      let t := rnv_inner suffix vmap c.named_volumes
      let r := resolve_named_volumes suffix rest t.2
      ({ c with final_named_volume_names := t.1 } :: r.1, r.2)

/-- Invariant of the volume name map: every entry maps an original volume id
to that id suffixed with the run id. -/
def vmap_good (suffix : String) (vmap : List (String × String)) : Prop :=
  ∀ p ∈ vmap, p.2 = p.1 ++ "-" ++ suffix

theorem mapLookup_mem {β : Type} (l : List (String × β)) (key : String) (v : β)
    (h : mapLookup l key = some v) : (key, v) ∈ l := by
  induction l with
  | nil => simp [mapLookup] at h
  | cons p rest ih =>
      obtain ⟨k, w⟩ := p
      by_cases hk : k = key
      · subst hk
        simp [mapLookup] at h
        simp [h]
      · simp [mapLookup, hk] at h
        simp [ih h]

theorem rnv_inner_spec (suffix : String) (volumes : List (String × String))
    (vmap : List (String × String)) (hgood : vmap_good suffix vmap) :
    (rnv_inner suffix vmap volumes).1
      = volumes.map (fun p => p.1 ++ "-" ++ suffix ++ ":" ++ p.2) ∧
    vmap_good suffix (rnv_inner suffix vmap volumes).2 ∧
    (∃ extra, (rnv_inner suffix vmap volumes).2 = vmap ++ extra) ∧
    (∀ p ∈ volumes, (p.1, p.1 ++ "-" ++ suffix) ∈ (rnv_inner suffix vmap volumes).2) := by
  induction volumes generalizing vmap with
  | nil =>
      refine ⟨rfl, hgood, ⟨[], by simp [rnv_inner]⟩, by simp⟩
  | cons q rest ih =>
      obtain ⟨vid, path⟩ := q
      cases hlk : mapLookup vmap vid with
      | some s =>
          have hs : s = vid ++ "-" ++ suffix := hgood (vid, s) (mapLookup_mem _ _ _ hlk)
          obtain ⟨h1, h2, ⟨extra, hext⟩, h4⟩ := ih vmap hgood
          refine ⟨?_, ?_, ?_, ?_⟩
          · simp only [rnv_inner, hlk, h1, List.map_cons]
            rw [hs]
          · simpa [rnv_inner, hlk] using h2
          · exact ⟨extra, by simpa [rnv_inner, hlk] using hext⟩
          · intro p hp
            rcases List.mem_cons.1 hp with hh | hh
            · have hmem : (vid, s) ∈ vmap := mapLookup_mem _ _ _ hlk
              subst hh
              simp only [rnv_inner, hlk]
              rw [hext]
              exact List.mem_append_left _ (hs ▸ hmem)
            · simpa [rnv_inner, hlk] using h4 p hh
      | none =>
          have hgood2 : vmap_good suffix (vmap ++ [(vid, vid ++ "-" ++ suffix)]) := by
            intro p hp
            rcases List.mem_append.1 hp with hh | hh
            · exact hgood p hh
            · simp at hh
              subst hh
              rfl
          obtain ⟨h1, h2, ⟨extra, hext⟩, h4⟩ :=
            ih (vmap ++ [(vid, vid ++ "-" ++ suffix)]) hgood2
          refine ⟨?_, ?_, ?_, ?_⟩
          · simp [rnv_inner, hlk, h1]
          · simpa [rnv_inner, hlk] using h2
          · refine ⟨(vid, vid ++ "-" ++ suffix) :: extra, ?_⟩
            simp only [rnv_inner, hlk]
            rw [hext, List.append_assoc]
            rfl
          · intro p hp
            rcases List.mem_cons.1 hp with hh | hh
            · subst hh
              simp only [rnv_inner, hlk]
              rw [hext]
              exact List.mem_append_left _ (List.mem_append_right _ (by simp))
            · simpa [rnv_inner, hlk] using h4 p hh

theorem resolve_named_volumes_spec (suffix : String) (comps : List Composition)
    (vmap : List (String × String)) (hgood : vmap_good suffix vmap) :
    (resolve_named_volumes suffix comps vmap).1.length = comps.length ∧
    vmap_good suffix (resolve_named_volumes suffix comps vmap).2 ∧
    (∃ extra, (resolve_named_volumes suffix comps vmap).2 = vmap ++ extra) ∧
    (∀ i, i < comps.length →
      (resolve_named_volumes suffix comps vmap).1.getD i default
        = { comps.getD i default with
            final_named_volume_names :=
              (comps.getD i default).named_volumes.map
                (fun p => p.1 ++ "-" ++ suffix ++ ":" ++ p.2) }) ∧
    (∀ c ∈ comps, ∀ p ∈ c.named_volumes,
      (p.1, p.1 ++ "-" ++ suffix) ∈ (resolve_named_volumes suffix comps vmap).2) := by
  induction comps generalizing vmap with
  | nil =>
      refine ⟨rfl, hgood, ⟨[], by simp [resolve_named_volumes]⟩, ?_, by simp⟩
      intro i hi
      simp at hi
  | cons c rest ih =>
      obtain ⟨hin1, hin2, ⟨extraI, hextI⟩, hin4⟩ :=
        rnv_inner_spec suffix c.named_volumes vmap hgood
      obtain ⟨hr1, hr2, ⟨extraR, hextR⟩, hr4, hr5⟩ :=
        ih (rnv_inner suffix vmap c.named_volumes).2 hin2
      refine ⟨?_, ?_, ?_, ?_, ?_⟩
      · simp [resolve_named_volumes, hr1]
      · simpa [resolve_named_volumes] using hr2
      · refine ⟨extraI ++ extraR, ?_⟩
        show (resolve_named_volumes suffix rest
            (rnv_inner suffix vmap c.named_volumes).2).2 = vmap ++ (extraI ++ extraR)
        rw [hextR, hextI, List.append_assoc]
      · intro i hi
        cases i with
        | zero =>
            show { c with final_named_volume_names :=
                (rnv_inner suffix vmap c.named_volumes).1 } = _
            rw [hin1]
            rfl
        | succ n =>
            have hn : n < rest.length := by simpa using hi
            have := hr4 n hn
            simpa [resolve_named_volumes] using this
      · intro c2 hc2 p hp
        rcases List.mem_cons.1 hc2 with hh | hh
        · subst hh
          have hmem := hin4 p hp
          show (p.1, p.1 ++ "-" ++ suffix) ∈
            (resolve_named_volumes suffix rest
              (rnv_inner suffix vmap c2.named_volumes).2).2
          rw [hextR]
          exact List.mem_append_left _ hmem
        · simpa [resolve_named_volumes] using hr5 c2 hh p hp

/-- C6: with run id `suffix`, every composition's final named-volume mount
strings are exactly its `(id, path)` pairs rendered as
`{id}-{suffix}:{path}` — so two compositions referencing the same original
volume name resolve to the same suffixed name — and every referenced
volume's suffixed name is recorded in the teardown list. -/
theorem c6_named_volumes (suffix : String) (comps : List Composition) :
    (∀ i, i < comps.length →
      ((resolve_named_volumes suffix comps []).1.getD i default).final_named_volume_names
        = (comps.getD i default).named_volumes.map
            (fun p => p.1 ++ "-" ++ suffix ++ ":" ++ p.2)) ∧
    (∀ c ∈ comps, ∀ p ∈ c.named_volumes,
      (p.1 ++ "-" ++ suffix) ∈
        (resolve_named_volumes suffix comps []).2.map (fun q => q.2)) := by
  obtain ⟨h1, h2, h3, h4, h5⟩ :=
    resolve_named_volumes_spec suffix comps [] (by intro p hp; simp at hp)
  constructor
  · intro i hi
    rw [h4 i hi]
  · intro c hc p hp
    exact List.mem_map.2 ⟨(p.1, p.1 ++ "-" ++ suffix), h5 c hc p hp, rfl⟩

/-- C6 witness: two compositions both referencing volume `data`; both mount
strings use the same suffixed name `data-runid`, and that name is recorded
for teardown. -/
theorem c6_named_volumes_witness :
    ((resolve_named_volumes "runid"
        [⟨"a", "", [], [], [("data", "/var/lib")], []⟩,
         ⟨"b", "", [], [], [("data", "/other")], []⟩] []).1.getD 0
          default).final_named_volume_names = ["data-runid:/var/lib"] ∧
    ((resolve_named_volumes "runid"
        [⟨"a", "", [], [], [("data", "/var/lib")], []⟩,
         ⟨"b", "", [], [], [("data", "/other")], []⟩] []).1.getD 1
          default).final_named_volume_names = ["data-runid:/other"] ∧
    "data-runid" ∈
      (resolve_named_volumes "runid"
        [⟨"a", "", [], [], [("data", "/var/lib")], []⟩,
         ⟨"b", "", [], [], [("data", "/other")], []⟩] []).2.map (fun q => q.2) := by
  refine ⟨?_, ?_, ?_⟩
  · rw [(c6_named_volumes "runid"
      [⟨"a", "", [], [], [("data", "/var/lib")], []⟩,
       ⟨"b", "", [], [], [("data", "/other")], []⟩]).1 0 (by decide)]
    rfl
  · rw [(c6_named_volumes "runid"
      [⟨"a", "", [], [], [("data", "/var/lib")], []⟩,
       ⟨"b", "", [], [], [("data", "/other")], []⟩]).1 1 (by decide)]
    rfl
  · exact (c6_named_volumes "runid"
      [⟨"a", "", [], [], [("data", "/var/lib")], []⟩,
       ⟨"b", "", [], [], [("data", "/other")], []⟩]).2
      ⟨"a", "", [], [], [("data", "/var/lib")], []⟩ (by simp)
      ("data", "/var/lib") (by simp)

/- ------------------------------------------------------------------
C1 (engine half): the in-place slot replacement of
Engine::start_containers (src/engine.rs 288-313).
------------------------------------------------------------------- -/

/-- The per-slot lifecycle states (`Transitional`). -/
inductive Transitional where
  | pending (p : PendingContainer)
  | running (r : RunningContainer)
  | creationFailure (e : DockerTestError)
  | staticExternal (s : StaticExternalContainer)
  | sentinel
deriving DecidableEq

/-- The matching predicate of the `position` closure: a started container is
matched to a slot by `Pending.id` or by `StaticExternal.handle`. -/
def transMatches (t : Transitional) (started : RunningContainer) : Bool :=
  match t with
  | Transitional.pending p => p.id == started.id
  | Transitional.staticExternal s => s.handle == started.handle
  | _ => false

/-- Model of `iter().position(pred)`. -/
def findPosition (p : Transitional → Bool) : List Transitional → Option Nat
  | [] => none
  | t :: rest =>
      if p t then some 0
      else
        match findPosition p rest with
        | some n => some (n + 1)
        | none => none

/-- The body of one found-position iteration: `mem::replace` the slot with
`Sentinel`, and when the old value was `Pending`/`StaticExternal` write
`Running(started)` back (otherwise the loop `continue`s, leaving the
sentinel). -/
def replace_slot (kept : List Transitional) (position : Nat)
    (started : RunningContainer) : List Transitional :=
  match kept.getD position Transitional.sentinel with
  | Transitional.pending _ =>
      (kept.set position Transitional.sentinel).set position
        (Transitional.running started)
  | Transitional.staticExternal _ =>
      (kept.set position Transitional.sentinel).set position
        (Transitional.running started)
  | _ => kept.set position Transitional.sentinel

/-- One iteration of the started-container loop: locate the slot matching the
started container (skip when absent) and replace it in place. -/
def update_started_slot (kept : List Transitional) (started : RunningContainer) :
    List Transitional :=
  match findPosition (fun t => transMatches t started) kept with
  | none => kept
  | some position => replace_slot kept position started

/-- The whole started-container loop of `Engine::start_containers`. -/
def update_started_slots (kept : List Transitional)
    (containers : List RunningContainer) : List Transitional :=
  containers.foldl update_started_slot kept

/-- A slot corresponds to its original composition: it is either untouched or
holds the running form of the very container the original slot described. -/
def slotPreserved (orig new : Transitional) : Prop :=
  new = orig ∨
    ∃ s : RunningContainer, transMatches orig s = true ∧ new = Transitional.running s

theorem getD_set_self {α : Type} (l : List α) (m : Nat) (a d : α)
    (h : m < l.length) : (l.set m a).getD m d = a := by
  rw [List.getD_eq_getElem _ _ (by simpa using h)]
  simp [List.getElem_set]

theorem getD_set_ne {α : Type} (l : List α) (m n : Nat) (a d : α)
    (h : m ≠ n) : (l.set m a).getD n d = l.getD n d := by
  by_cases hn : n < l.length
  · rw [List.getD_eq_getElem _ _ (by simpa using hn), List.getD_eq_getElem _ _ hn]
    exact List.getElem_set_ne h _
  · have h1 : l.length ≤ n := Nat.le_of_not_lt hn
    rw [List.getD_eq_default _ _ h1, List.getD_eq_default _ _ (by simpa using h1)]

theorem findPosition_some (p : Transitional → Bool) (l : List Transitional)
    (i : Nat) (h : findPosition p l = some i) :
    i < l.length ∧ p (l.getD i Transitional.sentinel) = true := by
  induction l generalizing i with
  | nil => simp [findPosition] at h
  | cons t rest ih =>
      by_cases hpt : p t
      · simp [findPosition, hpt] at h
        subst h
        simpa using hpt
      · cases hr : findPosition p rest with
        | none => simp [findPosition, hpt, hr] at h
        | some n =>
            have hin : i = n + 1 := by
              simp [findPosition, hpt, hr] at h
              omega
            subst hin
            obtain ⟨h1, h2⟩ := ih n hr
            exact ⟨by simpa using h1, by simpa using h2⟩

theorem set_set_preserves (orig kept : List Transitional) (s : RunningContainer)
    (pos : Nat) (hlen : kept.length = orig.length)
    (hinv : ∀ i, i < orig.length →
      slotPreserved (orig.getD i Transitional.sentinel)
        (kept.getD i Transitional.sentinel))
    (hpos : pos < kept.length)
    (hp : transMatches (kept.getD pos Transitional.sentinel) s = true) :
    ((kept.set pos Transitional.sentinel).set pos
        (Transitional.running s)).length = orig.length ∧
    (∀ i, i < orig.length →
      slotPreserved (orig.getD i Transitional.sentinel)
        (((kept.set pos Transitional.sentinel).set pos
            (Transitional.running s)).getD i Transitional.sentinel)) := by
  refine ⟨by simp [List.length_set, hlen], ?_⟩
  intro i hi
  by_cases hieq : i = pos
  · subst hieq
    have hkorig : kept.getD i Transitional.sentinel
        = orig.getD i Transitional.sentinel := by
      rcases hinv i hi with h | ⟨s2, hm, hnew⟩
      · exact h
      · rw [hnew] at hp
        simp [transMatches] at hp
    have hset : ((kept.set i Transitional.sentinel).set i
        (Transitional.running s)).getD i Transitional.sentinel
        = Transitional.running s :=
      getD_set_self _ _ _ _ (by simpa using hpos)
    rw [hset]
    exact Or.inr ⟨s, hkorig ▸ hp, rfl⟩
  · have hne : pos ≠ i := fun h => hieq h.symm
    rw [getD_set_ne _ _ _ _ _ hne, getD_set_ne _ _ _ _ _ hne]
    exact hinv i hi

theorem update_started_slot_preserves (orig kept : List Transitional)
    (s : RunningContainer) (hlen : kept.length = orig.length)
    (hinv : ∀ i, i < orig.length →
      slotPreserved (orig.getD i Transitional.sentinel)
        (kept.getD i Transitional.sentinel)) :
    (update_started_slot kept s).length = orig.length ∧
    (∀ i, i < orig.length →
      slotPreserved (orig.getD i Transitional.sentinel)
        ((update_started_slot kept s).getD i Transitional.sentinel)) := by
  cases hf : findPosition (fun t => transMatches t s) kept with
  | none =>
      have hres : update_started_slot kept s = kept := by
        simp only [update_started_slot, hf]
      rw [hres]
      exact ⟨hlen, hinv⟩
  | some pos =>
      obtain ⟨hpos, hp⟩ := findPosition_some _ _ _ hf
      have hres1 : update_started_slot kept s = replace_slot kept pos s := by
        simp only [update_started_slot, hf]
      cases hcur : kept.getD pos Transitional.sentinel with
      | pending p0 =>
          have hres : replace_slot kept pos s
              = (kept.set pos Transitional.sentinel).set pos
                  (Transitional.running s) := by
            simp only [replace_slot, hcur]
          rw [hres1, hres]
          exact set_set_preserves orig kept s pos hlen hinv hpos hp
      | staticExternal e0 =>
          have hres : replace_slot kept pos s
              = (kept.set pos Transitional.sentinel).set pos
                  (Transitional.running s) := by
            simp only [replace_slot, hcur]
          rw [hres1, hres]
          exact set_set_preserves orig kept s pos hlen hinv hpos hp
      | running r0 => rw [hcur] at hp; simp [transMatches] at hp
      | creationFailure e0 => rw [hcur] at hp; simp [transMatches] at hp
      | sentinel => rw [hcur] at hp; simp [transMatches] at hp

theorem update_started_slots_preserves (orig : List Transitional)
    (containers : List RunningContainer) :
    ∀ kept : List Transitional, kept.length = orig.length →
      (∀ i, i < orig.length →
        slotPreserved (orig.getD i Transitional.sentinel)
          (kept.getD i Transitional.sentinel)) →
      (update_started_slots kept containers).length = orig.length ∧
      (∀ i, i < orig.length →
        slotPreserved (orig.getD i Transitional.sentinel)
          ((update_started_slots kept containers).getD i Transitional.sentinel)) := by
  induction containers with
  | nil => exact fun kept h1 h2 => ⟨h1, h2⟩
  | cons s rest ih =>
      intro kept h1 h2
      have hstep := update_started_slot_preserves orig kept s h1 h2
      exact ih (update_started_slot kept s) hstep.1 hstep.2

theorem sort_restores_insertion_order (running : List RunningContainer)
    (ids : List String) (hnodup : ids.Nodup)
    (hperm : (running.map RunningContainer.id).Perm ids) :
    (sort_running_containers_into_insertion_order running ids).map
      RunningContainer.id = ids := by
  have htrans : ∀ a b c : RunningContainer,
      decide (List.indexOf a.id ids ≤ List.indexOf b.id ids) = true →
      decide (List.indexOf b.id ids ≤ List.indexOf c.id ids) = true →
      decide (List.indexOf a.id ids ≤ List.indexOf c.id ids) = true := by
    intro a b c hab hbc
    simp only [decide_eq_true_eq] at hab hbc ⊢
    omega
  have htotal : ∀ a b : RunningContainer,
      (decide (List.indexOf a.id ids ≤ List.indexOf b.id ids)
        || decide (List.indexOf b.id ids ≤ List.indexOf a.id ids)) = true := by
    intro a b
    rcases Nat.le_total (List.indexOf a.id ids) (List.indexOf b.id ids) with h | h <;>
      simp [h]
  have hperm2 : (sort_running_containers_into_insertion_order running ids).Perm
      running := List.mergeSort_perm running _
  have hLperm : ((sort_running_containers_into_insertion_order running ids).map
      RunningContainer.id).Perm ids :=
    (hperm2.map RunningContainer.id).trans hperm
  have hsorted : List.Pairwise
      (fun a b : RunningContainer =>
        decide (List.indexOf a.id ids ≤ List.indexOf b.id ids) = true)
      (sort_running_containers_into_insertion_order running ids) :=
    List.sorted_mergeSort htrans htotal running
  have hsortedL : List.Pairwise
      (fun x y : String => List.indexOf x ids ≤ List.indexOf y ids)
      ((sort_running_containers_into_insertion_order running ids).map
        RunningContainer.id) := by
    rw [List.pairwise_map]
    refine hsorted.imp ?_
    intro a b h
    simpa using h
  have hidxids : ids.map (fun x => List.indexOf x ids) = List.range ids.length := by
    apply List.ext_getElem
    · simp
    · intro i h1 h2
      simp only [List.getElem_map, List.getElem_range]
      exact List.indexOf_getElem hnodup i (by simpa using h1)
  have hKperm : (((sort_running_containers_into_insertion_order running ids).map
        RunningContainer.id).map (fun x => List.indexOf x ids)).Perm
      (List.range ids.length) := by
    rw [← hidxids]
    exact hLperm.map _
  have hKsorted : List.Sorted (fun a b : Nat => a ≤ b)
      (((sort_running_containers_into_insertion_order running ids).map
        RunningContainer.id).map (fun x => List.indexOf x ids)) :=
    (List.pairwise_map).2 hsortedL
  have hRsorted : List.Sorted (fun a b : Nat => a ≤ b)
      (List.range ids.length) :=
    (List.pairwise_lt_range _).imp le_of_lt
  have hK : (((sort_running_containers_into_insertion_order running ids).map
        RunningContainer.id).map (fun x => List.indexOf x ids))
      = List.range ids.length :=
    List.eq_of_perm_of_sorted hKperm hKsorted hRsorted
  have hlenL : ((sort_running_containers_into_insertion_order running ids).map
      RunningContainer.id).length = ids.length := hLperm.length_eq
  apply List.ext_getElem hlenL
  intro i h1 h2
  have h3 : i < (((sort_running_containers_into_insertion_order running ids).map
      RunningContainer.id).map (fun x => List.indexOf x ids)).length := by
    simpa using h1
  have e1 : (((sort_running_containers_into_insertion_order running ids).map
        RunningContainer.id).map (fun x => List.indexOf x ids))[i]
      = List.indexOf
          (((sort_running_containers_into_insertion_order running ids).map
            RunningContainer.id)[i]) ids :=
    List.getElem_map _
  have e2 : (((sort_running_containers_into_insertion_order running ids).map
        RunningContainer.id).map (fun x => List.indexOf x ids))[i] = i := by
    simp only [hK]
    exact List.getElem_range _ _
  have hKi : List.indexOf
      (((sort_running_containers_into_insertion_order running ids).map
        RunningContainer.id)[i]) ids = i := by
    rw [e1] at e2
    exact e2
  have h4 : List.indexOf
      (((sort_running_containers_into_insertion_order running ids).map
        RunningContainer.id)[i]) ids < ids.length := by
    rw [hKi]
    exact h2
  have h5 := List.getElem_indexOf h4
  simp only [hKi] at h5
  exact h5.symm

/-- C1: the container vector keeps insertion order at every phase.  Engine
half: the started-container loop only ever replaces a slot by the running
form of the container that slot already described, so after any sequence of
out-of-order completions the slot at index `i` still corresponds to the
`i`-th added composition.  Run-driver half: sorting the running containers by
the position of their id in the original ordered id vector restores exactly
that vector's order. -/
theorem c1_insertion_order_preserved :
    (∀ (kept : List Transitional) (containers : List RunningContainer),
      (update_started_slots kept containers).length = kept.length ∧
      (∀ i, i < kept.length →
        slotPreserved (kept.getD i Transitional.sentinel)
          ((update_started_slots kept containers).getD i Transitional.sentinel))) ∧
    (∀ (running : List RunningContainer) (ids : List String),
      ids.Nodup → (running.map RunningContainer.id).Perm ids →
      (sort_running_containers_into_insertion_order running ids).map
        RunningContainer.id = ids) := by
  constructor
  · intro kept containers
    exact update_started_slots_preserves kept containers kept rfl
      (fun i _ => Or.inl rfl)
  · exact sort_restores_insertion_order

/-- C1 witness: a two-slot engine batch updated by out-of-order completions
keeps both slots in correspondence, and a concrete out-of-order running
vector is sorted back into id order. -/
theorem c1_insertion_order_preserved_witness :
    ((update_started_slots
        [Transitional.pending ⟨"a", "ha", StartPolicy.strict⟩,
         Transitional.pending ⟨"b", "hb", StartPolicy.relaxed⟩]
        [⟨"b", "hb"⟩, ⟨"a", "ha"⟩]).length = 2 ∧
      slotPreserved
        (Transitional.pending ⟨"a", "ha", StartPolicy.strict⟩)
        ((update_started_slots
          [Transitional.pending ⟨"a", "ha", StartPolicy.strict⟩,
           Transitional.pending ⟨"b", "hb", StartPolicy.relaxed⟩]
          [⟨"b", "hb"⟩, ⟨"a", "ha"⟩]).getD 0 Transitional.sentinel)) ∧
    (sort_running_containers_into_insertion_order
        [⟨"2", "h2"⟩, ⟨"1", "h1"⟩] ["1", "2"]).map RunningContainer.id
      = ["1", "2"] :=
  ⟨⟨(c1_insertion_order_preserved.1
      [Transitional.pending ⟨"a", "ha", StartPolicy.strict⟩,
       Transitional.pending ⟨"b", "hb", StartPolicy.relaxed⟩]
      [⟨"b", "hb"⟩, ⟨"a", "ha"⟩]).1,
    (c1_insertion_order_preserved.1
      [Transitional.pending ⟨"a", "ha", StartPolicy.strict⟩,
       Transitional.pending ⟨"b", "hb", StartPolicy.relaxed⟩]
      [⟨"b", "hb"⟩, ⟨"a", "ha"⟩]).2 0 (by decide)⟩,
   c1_insertion_order_preserved.2 [⟨"2", "h2"⟩, ⟨"1", "h1"⟩] ["1", "2"]
     (by decide) (by decide)⟩

/- ------------------------------------------------------------------
Theorems for C7, C8, C9.
------------------------------------------------------------------- -/

/-- C8 counterexample: the claim asserts every letter including `z` can occur
in a generated run id / suffix, but `gen_range(b'a', b'z')` excludes the upper
bound, so no random source can ever produce `'z'`. -/
theorem c8_counterexample :
    ¬ ∃ rng : Nat → Nat, 'z' ∈ Dockertest.generate_random_string 20 rng := by
  rintro ⟨rng, hz⟩
  simp only [Dockertest.generate_random_string, List.mem_map, List.mem_range] at hz
  obtain ⟨i, _, hchar⟩ := hz
  have h25 : rng i % 25 < 25 := Nat.mod_lt _ (by omega)
  set k := rng i % 25 with hk
  clear_value k
  interval_cases k <;> exact absurd hchar (by decide)

/-- C8 amended: every generated run id / container-name suffix has length 20
and each character lies in `a`..`y` inclusive (`z` is excluded by the
exclusive upper bound of `gen_range`); conversely every letter `a`..`y`
(code points 97..121) is attainable by some random source. -/
theorem c8_amended (rng : Nat → Nat) :
    (Dockertest.generate_random_string 20 rng).length = 20 ∧
    (∀ c ∈ Dockertest.generate_random_string 20 rng, 'a' ≤ c ∧ c ≤ 'y') ∧
    (∀ n : Nat, 97 ≤ n → n ≤ 121 →
      ∃ rng2 : Nat → Nat, Char.ofNat n ∈ Dockertest.generate_random_string 20 rng2) := by
  refine ⟨by simp [Dockertest.generate_random_string], ?_, ?_⟩
  · intro c hc
    simp only [Dockertest.generate_random_string, List.mem_map, List.mem_range] at hc
    obtain ⟨i, _, rfl⟩ := hc
    have h25 : rng i % 25 < 25 := Nat.mod_lt _ (by omega)
    set k := rng i % 25 with hk
    clear_value k
    interval_cases k <;> exact ⟨by decide, by decide⟩
  · intro n h97 h121
    refine ⟨fun _ => n - 97, ?_⟩
    have hmod : (n - 97) % 25 = n - 97 := Nat.mod_eq_of_lt (by omega)
    simp only [Dockertest.generate_random_string, List.mem_map, List.mem_range]
    refine ⟨0, by omega, ?_⟩
    rw [hmod]
    congr 1
    omega

/-- C8 witness: the amended theorem instantiated at the constant-zero random
source, and letter `y` (code 121) shown attainable. -/
theorem c8_amended_witness :
    (Dockertest.generate_random_string 20 (fun _ => 0)).length = 20 ∧
    (∃ rng2 : Nat → Nat,
      Char.ofNat 121 ∈ Dockertest.generate_random_string 20 rng2) :=
  ⟨(c8_amended (fun _ => 0)).1, (c8_amended (fun _ => 0)).2.2 121 (by decide) (by decide)⟩

/-- C9 counterexample: `"NEVER"` is a value other than the four recognised
strings, yet (because the source lowercases the value before matching) it
selects `RunningRegardless`, not `RemoveRegardless`, refuting the claim that
every other value behaves like `always`. -/
theorem c9_counterexample :
    ("NEVER" ≠ "never" ∧ "NEVER" ≠ "running_on_failure" ∧
     "NEVER" ≠ "stop_on_failure" ∧ "NEVER" ≠ "always") ∧
    Dockertest.prune_strategy (some "NEVER") =
      (Dockertest.PruneStrategy.runningRegardless, false) ∧
    Dockertest.PruneStrategy.runningRegardless ≠
      Dockertest.PruneStrategy.removeRegardless := by
  refine ⟨⟨?_, ?_, ?_, ?_⟩, ?_, ?_⟩ <;> decide

/-- C9 amended: teardown selects `RemoveRegardless` when `DOCKERTEST_PRUNE`
is unset, and — with a warning — when it is set to any value whose lowercased
form is none of `never`, `running_on_failure`, `stop_on_failure`, `always`;
such unknown values behave exactly like `always`. -/
theorem c9_amended :
    Dockertest.prune_strategy none = (Dockertest.PruneStrategy.removeRegardless, false) ∧
    (∀ v : String,
      Dockertest.toLowercase v ≠ "never" → Dockertest.toLowercase v ≠ "running_on_failure" →
      Dockertest.toLowercase v ≠ "stop_on_failure" → Dockertest.toLowercase v ≠ "always" →
      Dockertest.prune_strategy (some v) =
        (Dockertest.PruneStrategy.removeRegardless, true)) := by
  refine ⟨rfl, ?_⟩
  intro v h1 h2 h3 h4
  simp only [Dockertest.prune_strategy]
  rw [if_neg h3, if_neg h1, if_neg h2, if_neg h4]

/-- C9 witness: the amended theorem instantiated at the unknown value
`"garbage"`. -/
theorem c9_amended_witness :
    Dockertest.prune_strategy none = (Dockertest.PruneStrategy.removeRegardless, false) ∧
    Dockertest.prune_strategy (some "garbage") =
      (Dockertest.PruneStrategy.removeRegardless, true) :=
  ⟨c9_amended.1, c9_amended.2 "garbage" (by decide) (by decide) (by decide) (by decide)⟩

/-- C7: under prune policy `StopOnFailure` with a failed test body, teardown
stops every cleanup container, removes no container, removes the run's
network, and removes no named volume. -/
theorem c7_stop_on_failure (cleanup : List Dockertest.CleanupContainer)
    (named_volumes : List String) (network : String) (containerId : Option String) :
    (∀ c ∈ cleanup, Dockertest.TeardownAction.stopContainer c.id ∈
      Dockertest.teardown (some "stop_on_failure") true cleanup named_volumes network containerId) ∧
    (∀ i : String, Dockertest.TeardownAction.removeContainer i ∉
      Dockertest.teardown (some "stop_on_failure") true cleanup named_volumes network containerId) ∧
    Dockertest.TeardownAction.removeNetwork network ∈
      Dockertest.teardown (some "stop_on_failure") true cleanup named_volumes network containerId ∧
    (∀ v : String, Dockertest.TeardownAction.removeVolume v ∉
      Dockertest.teardown (some "stop_on_failure") true cleanup named_volumes network containerId) := by
  have hT : Dockertest.teardown (some "stop_on_failure") true cleanup named_volumes network containerId
      = cleanup.map (fun c => Dockertest.TeardownAction.stopContainer c.id)
        ++ Dockertest.teardown_network containerId network := rfl
  rw [hT]
  refine ⟨?_, ?_, ?_, ?_⟩
  · intro c hc
    exact List.mem_append_left _ (List.mem_map_of_mem _ hc)
  · intro i hmem
    rcases List.mem_append.1 hmem with h | h
    · simp only [List.mem_map] at h
      obtain ⟨c, _, hc⟩ := h
      exact absurd hc (by simp)
    · cases containerId <;> simp [Dockertest.teardown_network] at h
  · refine List.mem_append_right _ ?_
    cases containerId <;> simp [Dockertest.teardown_network]
  · intro v hmem
    rcases List.mem_append.1 hmem with h | h
    · simp only [List.mem_map] at h
      obtain ⟨c, _, hc⟩ := h
      exact absurd hc (by simp)
    · cases containerId <;> simp [Dockertest.teardown_network] at h

/-- C7 witness: the theorem instantiated on a two-container cleanup list with
one named volume, a network and a self container id. -/
theorem c7_stop_on_failure_witness :
    Dockertest.TeardownAction.stopContainer "c1" ∈
      Dockertest.teardown (some "stop_on_failure") true [⟨"c1"⟩, ⟨"c2"⟩] ["v"] "net" (some "self") ∧
    Dockertest.TeardownAction.removeContainer "c1" ∉
      Dockertest.teardown (some "stop_on_failure") true [⟨"c1"⟩, ⟨"c2"⟩] ["v"] "net" (some "self") ∧
    Dockertest.TeardownAction.removeNetwork "net" ∈
      Dockertest.teardown (some "stop_on_failure") true [⟨"c1"⟩, ⟨"c2"⟩] ["v"] "net" (some "self") ∧
    Dockertest.TeardownAction.removeVolume "v" ∉
      Dockertest.teardown (some "stop_on_failure") true [⟨"c1"⟩, ⟨"c2"⟩] ["v"] "net" (some "self") :=
  ⟨(c7_stop_on_failure [⟨"c1"⟩, ⟨"c2"⟩] ["v"] "net" (some "self")).1 ⟨"c1"⟩ (by decide),
   (c7_stop_on_failure [⟨"c1"⟩, ⟨"c2"⟩] ["v"] "net" (some "self")).2.1 "c1",
   (c7_stop_on_failure [⟨"c1"⟩, ⟨"c2"⟩] ["v"] "net" (some "self")).2.2.1,
   (c7_stop_on_failure [⟨"c1"⟩, ⟨"c2"⟩] ["v"] "net" (some "self")).2.2.2 "v"⟩

end Dockertest
